import Mathlib

/-!
Verification development for the aegra agent server.

The first sections embed the Python source files
(`src/agent_server/utils/run_utils.py`, `src/agent_server/api/assistants.py`)
as pure Lean functions over a JSON-like value type.  Later sections model,
from the specification, the run-controller state machine and the
event-log/driver pipeline whose implementation is not among the provided
source files (only its tests are).
-/

namespace Aegra

/-- Python values as they occur in the event / config payloads handled by the
server: `None`, booleans, integers, strings, tuples, lists and string-keyed
dicts. -/
inductive PyVal where
  | none
  | bool (b : Bool)
  | int (n : Int)
  | str (s : String)
  | tuple (xs : List PyVal)
  | list (xs : List PyVal)
  | dict (kvs : List (String × PyVal))

/-- A Python dict with string keys, as an association list in insertion
order.  Dicts built by Python have unique keys; lookups take the first
match. -/
abbrev Dict := List (String × PyVal)

/-- First-match lookup, the meaning of `d[k]` / `k in d` on a Python dict
(whose keys are unique). -/
def lookup? (kvs : Dict) (k : String) : Option PyVal :=
  match kvs with
  | [] => Option.none
  | (k', v) :: rest => if k' = k then some v else lookup? rest k

/-- The meaning of `d[k] = v`: replace the binding in place if the key is
present, append it otherwise. -/
def dictSet (d : Dict) (k : String) (v : PyVal) : Dict :=
  match d with
  | [] => [(k, v)]
  | (k', v') :: rest => if k' = k then (k, v) :: rest else (k', v') :: dictSet rest k v

/-- The meaning of `d.update(e)`: set each binding of `e` into `d`, in
order. -/
def dictUpdate (d e : Dict) : Dict :=
  e.foldl (fun acc kv => dictSet acc kv.1 kv.2) d

/-- Membership of a string in a Python list (`s in tags`): some element is an
equal string. -/
def containsStr (xs : List PyVal) (s : String) : Bool :=
  xs.any fun v =>
    match v with
    | .str t => t = s
    | _ => false

/-- Python truthiness of a value (`bool(v)`). -/
def truthy : PyVal → Bool
  | .none => false
  | .bool b => b
  | .int n => n ≠ 0
  | .str s => s ≠ ""
  | .tuple xs => ¬xs.isEmpty
  | .list xs => ¬xs.isEmpty
  | .dict kvs => ¬kvs.isEmpty

/-- Embedding of `_should_skip_event` from
`src/agent_server/utils/run_utils.py`: a raw event is skipped exactly when it
is a tuple of length at least 2 whose last element is a tuple of length at
least 2 whose second element is a dict with a `"tags"` entry that is a list
containing the string `"langsmith:nostream"`.  Every other shape falls
through to `False`. -/
def shouldSkipEvent (raw : PyVal) : Bool :=
  match raw with
  | .tuple xs =>
    if 2 ≤ xs.length then
      match xs.getLast? with
      | some (.tuple ys) =>
        if 2 ≤ ys.length then
          match (ys[1]? : Option PyVal) with
          | some (.dict metadata) =>
            match lookup? metadata "tags" with
            | some (.list tags) => containsStr tags "langsmith:nostream"
            | _ => false
          | _ => false
        else false
      | _ => false
    else false
  | _ => false

/-- Embedding of `_merge_jsonb` from `src/agent_server/utils/run_utils.py`:
fold `result.update(deepcopy(obj))` over the arguments, skipping `None`
arguments.  Deep copying is the identity on immutable values, so it is not
reflected in the pure embedding. -/
def mergeJsonb (objects : List (Option Dict)) : Dict :=
  objects.foldl
    (fun result obj =>
      match obj with
      | Option.none => result
      | some o => dictUpdate result o)
    []

/-- Last-wins lookup across a list of dicts: the value of `k` in the last
dict that binds `k`.  This is the specification-side description of the
JSONB merge used to compare against `mergeJsonb`. -/
def lastLookup (ds : List Dict) (k : String) : Option PyVal :=
  match ds with
  | [] => Option.none
  | d :: rest =>
    match lastLookup rest k with
    | some v => some v
    | Option.none => lookup? d k

/-- Error outcomes surfaced synchronously by the API layer (§7 taxonomy,
HTTPException status codes in the source). -/
inductive ApiError where
  | badRequest (detail : String)
  | validation (detail : String)
  | conflict (detail : String)
  | notFound (detail : String)

/-- The value of `config.get("configurable")`: the binding, or `None` when
the key is absent. -/
def configurableOf (config : Dict) : PyVal :=
  (lookup? config "configurable").getD .none

/-- Python `v or w`: `v` when truthy, else `w`. -/
def pyOr (v w : PyVal) : PyVal :=
  if truthy v then v else w

/-- Embedding of the config/context reconciliation of `create_assistant`
(`src/agent_server/api/assistants.py`): reject when both
`config["configurable"]` and `context` are truthy, otherwise copy the truthy
one into the other; the result is the `(config, context)` pair that is
persisted. -/
def createAssistantConfigContext (config : Dict) (context : PyVal) :
    Except ApiError (Dict × PyVal) :=
  if truthy (configurableOf config) ∧ truthy context then
    .error (.badRequest "Cannot specify both configurable and context. Prefer setting context alone.")
  else if truthy (configurableOf config) then
    .ok (config, configurableOf config)
  else if truthy context then
    .ok (dictSet config "configurable" context, context)
  else
    .ok (config, context)

/-- Embedding of the config/context reconciliation of `update_assistant`
(`src/agent_server/api/assistants.py`): `config = request.config or {}` and
`context = request.context or {}` are normalized first, then the same
mutual-exclusion check and copy as in `create_assistant`; the result is the
`(config, context)` pair written to the new assistant version. -/
def updateAssistantConfigContext (config? : Option Dict) (context? : Option PyVal) :
    Except ApiError (Dict × PyVal) :=
  let config : Dict := config?.getD []
  let context : PyVal := pyOr (context?.getD .none) (.dict [])
  if truthy (configurableOf config) ∧ truthy context then
    .error (.badRequest "Cannot specify both configurable and context. Use only one.")
  else if truthy (configurableOf config) then
    .ok (config, configurableOf config)
  else if truthy context then
    .ok (dictSet config "configurable" context, context)
  else
    .ok (config, context)

/-- Run lifecycle statuses (spec §3, §4.1). -/
inductive RunStatus where
  | pending
  | running
  | interrupted
  | completed
  | failed
  | cancelled
deriving DecidableEq

/-- The terminal statuses: completed, failed, cancelled (spec §4.1). -/
def RunStatus.isTerminal : RunStatus → Bool
  | .completed => true
  | .failed => true
  | .cancelled => true
  | _ => false

/-- The edges of the spec's run-status state machine (§4.1):
`pending → running`, `running → completed | failed | cancelled | interrupted`,
and `interrupted → running` on resume. -/
def specEdge : RunStatus → RunStatus → Bool
  | .pending, .running => true
  | .running, .completed => true
  | .running, .failed => true
  | .running, .cancelled => true
  | .running, .interrupted => true
  | .interrupted, .running => true
  | _, _ => false

/-- A run record: identity, owning thread and current status (spec §3). -/
structure Run where
  runId : Nat
  threadId : Nat
  status : RunStatus
deriving DecidableEq

/-- Stream-mode / event-kind tags of normalized events (spec §3):
`values`, `messages`, `events`, `metadata`, `error` and the terminal
`end` marker (named `endEvent` here). -/
inductive StreamKind where
  | values
  | messages
  | events
  | metadata
  | error
  | endEvent
deriving DecidableEq

/-- A normalized event as stored in the Event Log: owning run, sequence
number within the run, kind and payload (spec §3). -/
structure LoggedEvent where
  runId : Nat
  seq : Nat
  kind : StreamKind
  payload : PyVal

/-- Modelled from the spec: the Run Record Store plus Event Log state the
Run Controller operates on (§2, §4.1); the controller implementation is not
among the provided sources.  Runs are kept in creation order and fresh ids
are drawn from `nextId`. -/
structure ServerState where
  runs : List Run
  events : List LoggedEvent
  nextId : Nat

/-- Lookup of a run record by id. -/
def findRun (s : ServerState) (rid : Nat) : Option Run :=
  s.runs.find? fun r => r.runId = rid

/-- Current status of a run, when it exists. -/
def statusOf (s : ServerState) (rid : Nat) : Option RunStatus :=
  (findRun s rid).map Run.status

/-- Overwrite the status of the run with the given id. -/
def setStatus (s : ServerState) (rid : Nat) (st : RunStatus) : ServerState :=
  { s with runs := s.runs.map fun r => if r.runId = rid then { r with status := st } else r }

/-- The most recently created run of a thread. -/
def latestRun (s : ServerState) (tid : Nat) : Option Run :=
  (s.runs.filter fun r => r.threadId = tid).getLast?

/-- Runs of a thread, most recent first (spec §4.1 `list_runs`). -/
def listRuns (s : ServerState) (tid : Nat) : List Run :=
  (s.runs.filter fun r => r.threadId = tid).reverse

/-- Modelled from the spec: `create_run` of the Run Controller (§4.1), whose
implementation is not among the provided sources.  Exactly one of
input/command must be supplied (`ValidationError` otherwise, before any side
effect); a plain input invocation conflicts with any active (non-terminal)
run on the thread and otherwise persists a new `pending` run; a command
resume requires the thread's latest run to be `interrupted` and advances
that same run back to `running`.  The (possibly unchanged) state is returned
alongside the result. -/
def createRun (s : ServerState) (tid : Nat) (input? command? : Option PyVal) :
    Except ApiError Nat × ServerState :=
  match input?, command? with
  | some _, some _ => (.error (.validation "both input and command provided"), s)
  | Option.none, Option.none => (.error (.validation "neither input nor command provided"), s)
  | some _, Option.none =>
    if s.runs.any (fun r => r.threadId = tid ∧ ¬r.status.isTerminal) then
      (.error (.conflict "thread already has an active run"), s)
    else
      (.ok s.nextId,
        { s with runs := s.runs ++ [⟨s.nextId, tid, .pending⟩], nextId := s.nextId + 1 })
  | Option.none, some _ =>
    match latestRun s tid with
    | some r =>
      if r.status = .interrupted then
        (.ok r.runId, setStatus s r.runId .running)
      else
        (.error (.conflict "thread is not interrupted"), s)
    | Option.none => (.error (.conflict "thread has no run to resume"), s)

/-- Modelled from the spec: the Execution Driver picking up a pending run and
marking it `running` before any engine event is produced (§4.2). -/
def startRun (s : ServerState) (rid : Nat) : Except ApiError Unit × ServerState :=
  match findRun s rid with
  | Option.none => (.error (.notFound "run not found"), s)
  | some r =>
    if r.status = .pending then (.ok (), setStatus s rid .running)
    else (.error (.conflict "run is not pending"), s)

/-- Modelled from the spec: the Execution Driver detecting an interrupt
signal in the stream of a running run (§4.2). -/
def markInterrupted (s : ServerState) (rid : Nat) : Except ApiError Unit × ServerState :=
  match findRun s rid with
  | Option.none => (.error (.notFound "run not found"), s)
  | some r =>
    if r.status = .running then (.ok (), setStatus s rid .interrupted)
    else (.error (.conflict "run is not running"), s)

/-- Modelled from the spec: the Execution Driver finalizing a running run on
normal engine termination (§4.2). -/
def markCompleted (s : ServerState) (rid : Nat) : Except ApiError Unit × ServerState :=
  match findRun s rid with
  | Option.none => (.error (.notFound "run not found"), s)
  | some r =>
    if r.status = .running then (.ok (), setStatus s rid .completed)
    else (.error (.conflict "run is not running"), s)

/-- Modelled from the spec: the Execution Driver finalizing a running run on
an engine exception (§4.2, §7). -/
def markFailed (s : ServerState) (rid : Nat) : Except ApiError Unit × ServerState :=
  match findRun s rid with
  | Option.none => (.error (.notFound "run not found"), s)
  | some r =>
    if r.status = .running then (.ok (), setStatus s rid .failed)
    else (.error (.conflict "run is not running"), s)

/-- Modelled from the spec: `cancel_run` (§4.1, §4.2).  Cancellation is a
no-op success on an already-terminal run; it finalizes a running run to
`cancelled`; on a run not yet running it only records the cooperative
cancellation request, which the driver honours from the `running` state, so
the status is unchanged here. -/
def cancelRun (s : ServerState) (rid : Nat) : Except ApiError Unit × ServerState :=
  match findRun s rid with
  | Option.none => (.error (.notFound "run not found"), s)
  | some r =>
    if r.status.isTerminal then (.ok (), s)
    else if r.status = .running then (.ok (), setStatus s rid .cancelled)
    else (.ok (), s)

/-- Modelled from the spec: `delete_run` (§4.1), whose implementation is not
among the provided sources.  An absent run is `NotFoundError`; a run in a
non-terminal status is `ConflictError` with no change; a terminal run is
removed together with its Event Log entries. -/
def deleteRun (s : ServerState) (rid : Nat) : Except ApiError Unit × ServerState :=
  match findRun s rid with
  | Option.none => (.error (.notFound "run not found"), s)
  | some r =>
    if r.status.isTerminal then
      (.ok (),
        { s with
          runs := s.runs.filter fun x => ¬x.runId = rid,
          events := s.events.filter fun e => ¬e.runId = rid })
    else
      (.error (.conflict "active run cannot be deleted"), s)

/-- The status-affecting operations of the Run Controller and Execution
Driver, used to state the state-machine invariant. -/
inductive Op where
  | create (tid : Nat) (input? command? : Option PyVal)
  | start (rid : Nat)
  | interruptDetected (rid : Nat)
  | complete (rid : Nat)
  | fail (rid : Nat)
  | cancel (rid : Nat)
  | delete (rid : Nat)

/-- The state reached by one operation (discarding its result). -/
def applyOp (op : Op) (s : ServerState) : ServerState :=
  match op with
  | .create tid i c => (createRun s tid i c).2
  | .start rid => (startRun s rid).2
  | .interruptDetected rid => (markInterrupted s rid).2
  | .complete rid => (markCompleted s rid).2
  | .fail rid => (markFailed s rid).2
  | .cancel rid => (cancelRun s rid).2
  | .delete rid => (deleteRun s rid).2

/-- Well-formedness of a server state: run ids are unique and below the
fresh-id counter. -/
def WF (s : ServerState) : Prop :=
  (s.runs.map Run.runId).Nodup ∧ ∀ r ∈ s.runs, r.runId < s.nextId

/-- A normalized event before sequence assignment: kind and payload. -/
abbrev PreEvent := StreamKind × PyVal

/-- Modelled from the spec: the Event Normalizer's tagging of a raw
mode-tagged event (§4.3, §9); the normalizer implementation is not among the
provided sources.  Known stream-mode tags map to their kind; any
unrecognized shape passes through under the catch-all fine-grained `events`
kind.  The normalizer itself never produces the driver-reserved `error` or
`endEvent` kinds. -/
def kindOf (raw : PyVal) : StreamKind :=
  match raw with
  | .tuple (.str "values" :: _) => .values
  | .tuple (.str "messages" :: _) => .messages
  | .tuple (.str "metadata" :: _) => .metadata
  | _ => .events

/-- Modelled from the spec: normalize-and-filter of one raw event (§4.3):
an event carrying the `langsmith:nostream` marker is dropped (not forwarded,
not logged, not counted); any other event is accepted with its kind. -/
def normalizeEvent (raw : PyVal) : Option PreEvent :=
  if shouldSkipEvent raw then Option.none else some (kindOf raw, raw)

/-- The accepted (non-filtered) normalized events of a raw engine stream, in
order. -/
def acceptedEvents (raws : List PyVal) : List PreEvent :=
  raws.filterMap normalizeEvent

/-- How one execution attempt ends (spec §4.1, §4.2): normal completion,
engine failure, interrupt detected, or cooperative cancellation. -/
inductive Outcome where
  | success
  | failure (msg : String)
  | interruptedRun
  | cancelledRun

/-- Modelled from the spec: the body of a run's Event Log before the
terminal marker (§4.2): the accepted normalized events, with an
`error`-kind event appended when the engine failed. -/
def runEventBody (raws : List PyVal) (outcome : Outcome) : List PreEvent :=
  acceptedEvents raws ++
    match outcome with
    | .failure msg => [(.error, .str msg)]
    | _ => []

/-- Assign gapless sequence numbers 0, 1, 2, … to a list of normalized
events (spec §4.4 `append`). -/
def assignSeqs (rid : Nat) (xs : List PreEvent) : List LoggedEvent :=
  xs.enum.map fun p => ⟨rid, p.1, p.2.1, p.2.2⟩

/-- Modelled from the spec: the full Event Log of one run (§4.2, §4.4),
whose implementation is not among the provided sources: the normalized,
filtered body followed by exactly one terminal `end` marker, with sequence
numbers assigned in emission order.  The same log is what the Streaming
Gateway replays to subscribers. -/
def runEventLog (rid : Nat) (raws : List PyVal) (outcome : Outcome) : List LoggedEvent :=
  assignSeqs rid (runEventBody raws outcome ++ [(.endEvent, .none)])

/-- Modelled from the spec: a subscriber's stream view of a run's log when
joining with a resume-from sequence number (§4.4 `read_from`, §4.5): the
events from that sequence number onward. -/
def subscriberView (log : List LoggedEvent) (startSeq : Nat) : List LoggedEvent :=
  log.drop startSeq

/-- Modelled from the spec: `_filter_context_by_schema` (§4.3), whose
implementation is not among the provided sources (only its unit tests are).
With no schema, or a schema without a non-empty `"properties"` dict, the
context passes through unchanged with no diagnostics; otherwise keys absent
from the schema's properties are dropped, and for each dropped key a
diagnostic `(dropped key, available keys)` is recorded, the available keys
being those the schema accepts. -/
def filterContextBySchema (context : Dict) (schema? : Option Dict) :
    Dict × List (String × List String) :=
  match schema? with
  | Option.none => (context, [])
  | some schema =>
    match lookup? schema "properties" with
    | some (.dict props) =>
      if props.isEmpty then (context, [])
      else
        let allowed := props.map Prod.fst
        let kept := context.filter fun kv => allowed.contains kv.1
        let dropped := context.filter fun kv => ¬allowed.contains kv.1
        (kept, dropped.map fun kv => (kv.1, allowed))
    | _ => (context, [])

lemma lookup?_eq_none_of_not_mem (d : Dict) (k : String)
    (h : k ∉ d.map Prod.fst) : lookup? d k = Option.none := by
  induction d with
  | nil => rfl
  | cons kv rest ih =>
    simp only [List.map_cons, List.mem_cons] at h
    push_neg at h
    simp only [lookup?]
    rw [if_neg (fun he => h.1 he.symm), ih h.2]

lemma mem_of_lookup?_isSome (d : Dict) (k : String)
    (h : (lookup? d k).isSome) : k ∈ d.map Prod.fst := by
  by_contra hk
  rw [lookup?_eq_none_of_not_mem d k hk] at h
  simp at h

lemma lookup?_dictSet (d : Dict) (k k' : String) (v : PyVal) :
    lookup? (dictSet d k v) k' = if k = k' then some v else lookup? d k' := by
  induction d with
  | nil => simp [dictSet, lookup?]
  | cons kv rest ih =>
    obtain ⟨k0, v0⟩ := kv
    simp only [dictSet]
    by_cases h0 : k0 = k
    · subst h0
      simp only [if_pos rfl, lookup?]
      by_cases h1 : k0 = k'
      · subst h1; simp
      · simp [h1]
    · rw [if_neg h0]
      simp only [lookup?]
      by_cases h1 : k0 = k'
      · subst h1
        rw [if_pos rfl, if_pos rfl, if_neg (fun he => h0 he.symm)]
      · rw [if_neg h1, if_neg h1, ih]

lemma lookup?_dictUpdate (d e : Dict) (k : String)
    (he : (e.map Prod.fst).Nodup) :
    lookup? (dictUpdate d e) k =
      match lookup? e k with
      | some v => some v
      | Option.none => lookup? d k := by
  induction e generalizing d with
  | nil => rfl
  | cons kv rest ih =>
    obtain ⟨k0, v0⟩ := kv
    simp only [List.map_cons, List.nodup_cons] at he
    have step : dictUpdate d ((k0, v0) :: rest) = dictUpdate (dictSet d k0 v0) rest := rfl
    rw [step, ih _ he.2]
    simp only [lookup?]
    by_cases h0 : k0 = k
    · subst h0
      rw [if_pos rfl]
      have hnone : lookup? rest k0 = Option.none :=
        lookup?_eq_none_of_not_mem rest k0 he.1
      rw [hnone, lookup?_dictSet, if_pos rfl]
    · rw [if_neg h0]
      cases hrest : lookup? rest k with
      | none => simp [lookup?_dictSet, h0]
      | some v => rfl

lemma lookup?_of_truthy_configurable (config : Dict)
    (h : truthy (configurableOf config) = true) :
    lookup? config "configurable" = some (configurableOf config) := by
  cases hc : lookup? config "configurable" with
  | none =>
    exfalso
    have hn : configurableOf config = .none := by unfold configurableOf; rw [hc]; rfl
    rw [hn] at h
    simp [truthy] at h
  | some v =>
    have hv : configurableOf config = v := by unfold configurableOf; rw [hc]; rfl
    rw [hv]

/-- C1 counterexample: the raw event
`((("meta", {"tags": ["langsmith:nostream"]}),),)` — a 1-tuple whose last
element is a tuple of length 2 whose second component is a metadata dict
whose `"tags"` list contains `"langsmith:nostream"` — is NOT skipped by
`_should_skip_event`, because the code also requires the outer tuple to have
length at least 2; the claim as stated says such an event is skipped. -/
theorem shouldSkipEvent_one_tuple_counterexample :
    shouldSkipEvent (.tuple [.tuple [.str "meta",
        .dict [("tags", .list [.str "langsmith:nostream"])]]]) = false
    ∧ [PyVal.tuple [.str "meta",
        .dict [("tags", .list [.str "langsmith:nostream"])]]].getLast?
      = some (.tuple [.str "meta",
          .dict [("tags", .list [.str "langsmith:nostream"])]])
    ∧ 2 ≤ [PyVal.str "meta",
        PyVal.dict [("tags", PyVal.list [.str "langsmith:nostream"])]].length
    ∧ lookup? [("tags", PyVal.list [.str "langsmith:nostream"])] "tags"
      = some (.list [.str "langsmith:nostream"])
    ∧ containsStr [.str "langsmith:nostream"] "langsmith:nostream" = true :=
  ⟨rfl, rfl, by decide, rfl, rfl⟩

/-- C1 (amended): for every raw event that is a tuple OF LENGTH AT LEAST 2
whose last element is a tuple of length at least 2 whose second component is
a metadata dict containing a `"tags"` list, `_should_skip_event` returns
exactly the membership of `"langsmith:nostream"` in that list: `True` (the
event is dropped) when the reserved string is present, `False` (the event is
delivered) when it is absent. -/
theorem shouldSkipEvent_tag_decides (xs ys : List PyVal) (metadata : Dict)
    (tags : List PyVal)
    (hlen : 2 ≤ xs.length)
    (hlast : xs.getLast? = some (.tuple ys))
    (hylen : 2 ≤ ys.length)
    (hmeta : (ys[1]? : Option PyVal) = some (.dict metadata))
    (htags : lookup? metadata "tags" = some (.list tags)) :
    shouldSkipEvent (.tuple xs) = containsStr tags "langsmith:nostream" := by
  simp only [shouldSkipEvent, hlast, hmeta, htags, hlen, hylen, if_true]

/-- C1 witness: the tuple event of the unit test carrying the
`langsmith:nostream` tag is skipped, and the same event with a different tag
is delivered. -/
theorem shouldSkipEvent_tag_decides_witness :
    shouldSkipEvent (.tuple [.str "values", .dict [("foo", .str "bar")],
        .tuple [.str "meta", .dict [("tags", .list [.str "langsmith:nostream"])]]]) = true
    ∧ shouldSkipEvent (.tuple [.str "values", .dict [("foo", .str "bar")],
        .tuple [.str "meta", .dict [("tags", .list [.str "other"])]]]) = false := by
  constructor
  · rw [shouldSkipEvent_tag_decides
      [.str "values", .dict [("foo", .str "bar")],
        .tuple [.str "meta", .dict [("tags", .list [.str "langsmith:nostream"])]]]
      [.str "meta", .dict [("tags", .list [.str "langsmith:nostream"])]]
      [("tags", .list [.str "langsmith:nostream"])]
      [.str "langsmith:nostream"]
      (by decide) rfl (by decide) rfl rfl]
    rfl
  · rw [shouldSkipEvent_tag_decides
      [.str "values", .dict [("foo", .str "bar")],
        .tuple [.str "meta", .dict [("tags", .list [.str "other"])]]]
      [.str "meta", .dict [("tags", .list [.str "other"])]]
      [("tags", .list [.str "other"])]
      [.str "other"]
      (by decide) rfl (by decide) rfl rfl]
    rfl

/-- C2: `_should_skip_event` is fail-open: whenever it returns `True` the
input matched the full recognized pattern (tuple of length at least 2, last
element a tuple of length at least 2, dict in the metadata slot, a `"tags"`
key bound to a list, and the reserved string a member), so on every input of
any other shape it returns `False` — and, being a total function, it never
fails. -/
theorem shouldSkipEvent_fail_open (v : PyVal)
    (h : shouldSkipEvent v = true) :
    ∃ xs ys metadata tags,
      v = .tuple xs ∧ 2 ≤ xs.length ∧
      xs.getLast? = some (.tuple ys) ∧ 2 ≤ ys.length ∧
      (ys[1]? : Option PyVal) = some (.dict metadata) ∧
      lookup? metadata "tags" = some (.list tags) ∧
      containsStr tags "langsmith:nostream" = true := by
  cases v with
  | tuple xs =>
    simp only [shouldSkipEvent] at h
    split at h
    case isTrue hlen =>
      split at h
      case h_1 ys hlast =>
        split at h
        case isTrue hylen =>
          split at h
          case h_1 metadata hmeta =>
            split at h
            case h_1 tags htags =>
              exact ⟨xs, ys, metadata, tags, rfl, hlen, hlast, hylen, hmeta, htags, h⟩
            case h_2 => exact absurd h (by simp)
          case h_2 => exact absurd h (by simp)
        case isFalse => exact absurd h (by simp)
      case h_2 => exact absurd h (by simp)
    case isFalse => exact absurd h (by simp)
  | none => exact absurd h (by simp [shouldSkipEvent])
  | bool b => exact absurd h (by simp [shouldSkipEvent])
  | int n => exact absurd h (by simp [shouldSkipEvent])
  | str s => exact absurd h (by simp [shouldSkipEvent])
  | list xs => exact absurd h (by simp [shouldSkipEvent])
  | dict kvs => exact absurd h (by simp [shouldSkipEvent])

/-- C2 witness: the theorem applied to the unit-test event that is skipped,
extracting the full recognized pattern. -/
theorem shouldSkipEvent_fail_open_witness :
    ∃ xs ys metadata tags,
      PyVal.tuple [.str "values", .dict [("foo", .str "bar")],
          .tuple [.str "meta", .dict [("tags", .list [.str "langsmith:nostream"])]]]
        = .tuple xs ∧ 2 ≤ xs.length ∧
      xs.getLast? = some (.tuple ys) ∧ 2 ≤ ys.length ∧
      (ys[1]? : Option PyVal) = some (.dict metadata) ∧
      lookup? metadata "tags" = some (.list tags) ∧
      containsStr tags "langsmith:nostream" = true :=
  shouldSkipEvent_fail_open _ rfl

lemma mergeJsonb_foldl_aux (objects : List (Option Dict)) (acc : Dict) (k : String)
    (h : ∀ d ∈ objects.filterMap id, (d.map Prod.fst).Nodup) :
    lookup?
      (objects.foldl
        (fun result obj =>
          match obj with
          | Option.none => result
          | some o => dictUpdate result o)
        acc) k =
      match lastLookup (objects.filterMap id) k with
      | some v => some v
      | Option.none => lookup? acc k := by
  induction objects generalizing acc with
  | nil => rfl
  | cons obj rest ih =>
    cases obj with
    | none =>
      have hfm : (Option.none :: rest).filterMap (id : Option Dict → Option Dict)
          = rest.filterMap id := by simp
      rw [List.foldl_cons, hfm]
      exact ih acc (by rw [hfm] at h; exact h)
    | some d =>
      have hfm : ((some d) :: rest).filterMap (id : Option Dict → Option Dict)
          = d :: rest.filterMap id := by simp
      rw [List.foldl_cons, hfm]
      have hd : (d.map Prod.fst).Nodup := by
        apply h; rw [hfm]; exact List.mem_cons_self _ _
      have hrest : ∀ x ∈ rest.filterMap id, (x.map Prod.fst).Nodup := by
        intro x hx
        apply h; rw [hfm]; exact List.mem_cons_of_mem _ hx
      rw [ih (dictUpdate acc d) hrest]
      simp only [lastLookup]
      cases hlast : lastLookup (rest.filterMap id) k with
      | some v => rfl
      | none => rw [lookup?_dictUpdate acc d k hd]

lemma lastLookup_isSome_iff (ds : List Dict) (k : String) :
    (lastLookup ds k).isSome = true ↔ ∃ d ∈ ds, (lookup? d k).isSome = true := by
  induction ds with
  | nil => simp [lastLookup]
  | cons d rest ih =>
    simp only [lastLookup, List.mem_cons]
    cases hrest : lastLookup rest k with
    | some v =>
      simp only [Option.isSome_some, true_iff]
      rw [hrest] at ih
      simp only [Option.isSome_some, true_iff] at ih
      obtain ⟨d', hd', hs⟩ := ih
      exact ⟨d', Or.inr hd', hs⟩
    | none =>
      rw [hrest] at ih
      simp only [Option.isSome_none, Bool.false_eq_true, false_iff] at ih
      push_neg at ih
      constructor
      · intro hs
        exact ⟨d, Or.inl rfl, hs⟩
      · rintro ⟨d', hd' | hd', hs⟩
        · rw [hd'] at hs; exact hs
        · exact absurd hs (by simpa using ih d' hd')

/-- C9: `_merge_jsonb` over any sequence of dict-or-`None` arguments is,
extensionally, the last-wins top-level merge of the non-`None` arguments:
each key's value is exactly the value from the last argument binding that
key (no recursive merging of nested dicts), `None` arguments act as identity
elements, and a key is present in the result exactly when some non-`None`
argument binds it (key set = union of key sets). -/
theorem mergeJsonb_last_wins (objects : List (Option Dict)) (k : String)
    (h : ∀ d ∈ objects.filterMap id, (d.map Prod.fst).Nodup) :
    lookup? (mergeJsonb objects) k = lastLookup (objects.filterMap id) k
    ∧ ((lookup? (mergeJsonb objects) k).isSome = true ↔
        ∃ d ∈ objects.filterMap id, (lookup? d k).isSome = true) := by
  have heq : lookup? (mergeJsonb objects) k = lastLookup (objects.filterMap id) k := by
    have := mergeJsonb_foldl_aux objects [] k h
    unfold mergeJsonb
    rw [this]
    cases lastLookup (objects.filterMap id) k with
    | some v => rfl
    | none => rfl
  exact ⟨heq, by rw [heq]; exact lastLookup_isSome_iff _ _⟩

/-- C9 witness: the unit-test inputs `a = {"x": 1, "y": {"a": 2}}`,
`b = {"y": {"b": 3}, "z": 4}` merged as `_merge_jsonb(a, None, b)`: `b`'s
nested dict wholly overrides `a`'s at key `"y"`, and keys `"x"` and `"z"`
come from the respective sole binders. -/
theorem mergeJsonb_last_wins_witness :
    lookup?
        (mergeJsonb
          [some [("x", .int 1), ("y", .dict [("a", .int 2)])],
           Option.none,
           some [("y", .dict [("b", .int 3)]), ("z", .int 4)]]) "y"
      = lastLookup
          [[("x", .int 1), ("y", .dict [("a", .int 2)])],
           [("y", .dict [("b", .int 3)]), ("z", .int 4)]] "y"
    ∧ lookup?
        (mergeJsonb
          [some [("x", .int 1), ("y", .dict [("a", .int 2)])],
           Option.none,
           some [("y", .dict [("b", .int 3)]), ("z", .int 4)]]) "x"
      = lastLookup
          [[("x", .int 1), ("y", .dict [("a", .int 2)])],
           [("y", .dict [("b", .int 3)]), ("z", .int 4)]] "x" := by
  constructor
  · exact (mergeJsonb_last_wins
      [some [("x", .int 1), ("y", .dict [("a", .int 2)])],
       Option.none,
       some [("y", .dict [("b", .int 3)]), ("z", .int 4)]] "y"
      (by intro d hd; fin_cases hd <;> simp)).1
  · exact (mergeJsonb_last_wins
      [some [("x", .int 1), ("y", .dict [("a", .int 2)])],
       Option.none,
       some [("y", .dict [("b", .int 3)]), ("z", .int 4)]] "x"
      (by intro d hd; fin_cases hd <;> simp)).1

/-- C10: both `create_assistant` and `update_assistant` reject with HTTP 400
any request supplying a truthy (non-empty) `config["configurable"]` together
with a truthy (non-empty) `context`; and whenever exactly one of the two is
supplied, the persisted pair has `config["configurable"]` bound to exactly
the persisted `context`. -/
theorem assistant_config_context_sync (config : Dict) (context : PyVal) :
    (truthy (configurableOf config) = true → truthy context = true →
      (∃ d, createAssistantConfigContext config context = .error (.badRequest d)) ∧
      (∃ d, updateAssistantConfigContext (some config) (some context) = .error (.badRequest d)))
    ∧ (∀ cfg ctx, createAssistantConfigContext config context = .ok (cfg, ctx) →
        (truthy (configurableOf config) = true ∨ truthy context = true) →
        lookup? cfg "configurable" = some ctx)
    ∧ (∀ cfg ctx, updateAssistantConfigContext (some config) (some context) = .ok (cfg, ctx) →
        (truthy (configurableOf config) = true ∨ truthy context = true) →
        lookup? cfg "configurable" = some ctx) := by
  have hnorm : pyOr context (.dict []) =
      if truthy context = true then context else .dict [] := by
    simp [pyOr]
  refine ⟨?_, ?_, ?_⟩
  · intro hcfg hctx
    constructor
    · exact ⟨"Cannot specify both configurable and context. Prefer setting context alone.", by
        unfold createAssistantConfigContext
        rw [if_pos ⟨hcfg, hctx⟩]⟩
    · exact ⟨"Cannot specify both configurable and context. Use only one.", by
        unfold updateAssistantConfigContext
        simp only [Option.getD_some]
        rw [hnorm, if_pos hctx, if_pos ⟨hcfg, hctx⟩]⟩
  · intro cfg ctx hok hsup
    unfold createAssistantConfigContext at hok
    by_cases hcfg : truthy (configurableOf config) = true
    · by_cases hctx : truthy context = true
      · rw [if_pos ⟨hcfg, hctx⟩] at hok; cases hok
      · rw [if_neg (fun hp => hctx hp.2), if_pos hcfg] at hok
        cases hok
        rw [lookup?_of_truthy_configurable config hcfg]
    · have hctx : truthy context = true := by
        cases hsup with
        | inl hp => exact absurd hp hcfg
        | inr hp => exact hp
      rw [if_neg (fun hp => hcfg hp.1), if_neg hcfg, if_pos hctx] at hok
      cases hok
      rw [lookup?_dictSet, if_pos rfl]
  · intro cfg ctx hok hsup
    unfold updateAssistantConfigContext at hok
    simp only [Option.getD_some] at hok
    rw [hnorm] at hok
    by_cases hctx : truthy context = true
    · rw [if_pos hctx] at hok
      by_cases hcfg : truthy (configurableOf config) = true
      · rw [if_pos ⟨hcfg, hctx⟩] at hok; cases hok
      · rw [if_neg (fun hp => hcfg hp.1), if_neg hcfg, if_pos hctx] at hok
        cases hok
        rw [lookup?_dictSet, if_pos rfl]
    · rw [if_neg hctx] at hok
      have hcfg : truthy (configurableOf config) = true := by
        cases hsup with
        | inl hp => exact hp
        | inr hp => exact absurd hp hctx
      rw [if_neg (fun hp => absurd hp.2 (by decide)), if_pos hcfg] at hok
      cases hok
      rw [lookup?_of_truthy_configurable config hcfg]

/-- C10 witness: with both `configurable = {"a": 1}` and `context = {"b": 2}`
supplied, both endpoints reject with 400; with only `context = {"b": 2}`
supplied, `create_assistant` persists `config["configurable"]` equal to the
context. -/
theorem assistant_config_context_sync_witness :
    (∃ d, createAssistantConfigContext [("configurable", .dict [("a", .int 1)])]
        (.dict [("b", .int 2)]) = .error (.badRequest d))
    ∧ (∃ d, updateAssistantConfigContext (some [("configurable", .dict [("a", .int 1)])])
        (some (.dict [("b", .int 2)])) = .error (.badRequest d))
    ∧ lookup? (dictSet [] "configurable" (.dict [("b", .int 2)])) "configurable"
        = some (.dict [("b", .int 2)]) := by
  have hboth := (assistant_config_context_sync
      [("configurable", .dict [("a", .int 1)])] (.dict [("b", .int 2)])).1
      (by decide) (by decide)
  refine ⟨hboth.1, hboth.2, ?_⟩
  exact (assistant_config_context_sync [] (.dict [("b", .int 2)])).2.1
    (dictSet [] "configurable" (.dict [("b", .int 2)])) (.dict [("b", .int 2)])
    rfl (Or.inr (by decide))

lemma findRun_eq_some (s : ServerState) (rid : Nat) (r1 : Run)
    (h : findRun s rid = some r1) : r1 ∈ s.runs ∧ r1.runId = rid := by
  unfold findRun at h
  refine ⟨List.mem_of_find?_eq_some h, ?_⟩
  have := List.find?_some h
  simpa using this

lemma run_eq_of_mem_of_id (s : ServerState) (hnd : (s.runs.map Run.runId).Nodup)
    (r r' : Run) (h1 : r ∈ s.runs) (h2 : r' ∈ s.runs) (hid : r'.runId = r.runId) :
    r' = r :=
  List.inj_on_of_nodup_map hnd h2 h1 hid

lemma setStatus_run_id (r : Run) (rid : Nat) (st : RunStatus) :
    ((if r.runId = rid then { r with status := st } else r) : Run).runId = r.runId := by
  by_cases h : r.runId = rid <;> simp [h]

lemma mem_setStatus_cases (s : ServerState) (hnd : (s.runs.map Run.runId).Nodup)
    (rid : Nat) (st : RunStatus) (r r' : Run)
    (hr : r ∈ s.runs) (hr' : r' ∈ (setStatus s rid st).runs) (hid : r'.runId = r.runId) :
    r' = r ∨ (r.runId = rid ∧ r' = { r with status := st }) := by
  unfold setStatus at hr'
  simp only [List.mem_map] at hr'
  obtain ⟨r0, hr0, hfr0⟩ := hr'
  have hid0 : r0.runId = r.runId := by
    rw [← hfr0] at hid
    rw [← hid, setStatus_run_id]
  have hr0r : r0 = r := run_eq_of_mem_of_id s hnd r r0 hr hr0 hid0
  subst hr0r
  by_cases hcase : r0.runId = rid
  · right
    exact ⟨hcase, by rw [← hfr0, if_pos hcase]⟩
  · left
    rw [← hfr0, if_neg hcase]

lemma statusOf_setStatus_self (s : ServerState) (rid : Nat) (st : RunStatus)
    (h : ∃ r ∈ s.runs, r.runId = rid) :
    statusOf (setStatus s rid st) rid = some st := by
  unfold statusOf findRun setStatus
  simp only [List.find?_map]
  have hp : ((fun x : Run => decide (x.runId = rid)) ∘
      (fun r : Run => if r.runId = rid then { r with status := st } else r)) =
      fun x : Run => decide (x.runId = rid) := by
    funext x
    simp only [Function.comp]
    by_cases hx : x.runId = rid <;> simp [hx]
  rw [hp]
  obtain ⟨r0, hr0, hid0⟩ := h
  have hsome : (s.runs.find? fun x : Run => decide (x.runId = rid)).isSome := by
    rw [List.find?_isSome]
    exact ⟨r0, hr0, by simpa using hid0⟩
  obtain ⟨r1, hr1⟩ := Option.isSome_iff_exists.mp hsome
  have hid1 : r1.runId = rid := by simpa using List.find?_some hr1
  rw [hr1]
  simp [hid1]

lemma latestRun_mem (s : ServerState) (tid : Nat) (r1 : Run)
    (h : latestRun s tid = some r1) : r1 ∈ s.runs := by
  unfold latestRun at h
  exact List.mem_of_mem_filter (List.mem_of_mem_getLast? h)

/-- C6: a `create_run` request supplying both input and command, or neither,
fails with a `ValidationError` and has no side effect: the server state is
returned unchanged, so a subsequent `list_runs` on any thread is
unchanged. -/
theorem createRun_mutual_exclusion (s : ServerState) (tid : Nat)
    (input? command? : Option PyVal)
    (h : (input?.isSome = true ∧ command?.isSome = true) ∨
         (input? = Option.none ∧ command? = Option.none)) :
    (∃ d, (createRun s tid input? command?).1 = .error (.validation d))
    ∧ (createRun s tid input? command?).2 = s
    ∧ ∀ tid', listRuns (createRun s tid input? command?).2 tid' = listRuns s tid' := by
  rcases h with ⟨hi, hc⟩ | ⟨hi, hc⟩
  · obtain ⟨v, hv⟩ := Option.isSome_iff_exists.mp hi
    obtain ⟨w, hw⟩ := Option.isSome_iff_exists.mp hc
    subst hv hw
    exact ⟨⟨"both input and command provided", rfl⟩, rfl, fun _ => rfl⟩
  · subst hi hc
    exact ⟨⟨"neither input nor command provided", rfl⟩, rfl, fun _ => rfl⟩

/-- C6 witness: on a one-run server state, a request with both input and
command fails validation and leaves the state (hence `list_runs`) unchanged. -/
theorem createRun_mutual_exclusion_witness :
    (∃ d, (createRun ⟨[⟨0, 7, .completed⟩], [], 1⟩ 7
        (some (.dict [])) (some (.dict []))).1 = .error (.validation d))
    ∧ (createRun ⟨[⟨0, 7, .completed⟩], [], 1⟩ 7
        (some (.dict [])) (some (.dict []))).2 = ⟨[⟨0, 7, .completed⟩], [], 1⟩
    ∧ ∀ tid', listRuns (createRun ⟨[⟨0, 7, .completed⟩], [], 1⟩ 7
        (some (.dict [])) (some (.dict []))).2 tid'
        = listRuns ⟨[⟨0, 7, .completed⟩], [], 1⟩ tid' :=
  createRun_mutual_exclusion ⟨[⟨0, 7, .completed⟩], [], 1⟩ 7
    (some (.dict [])) (some (.dict [])) (Or.inl ⟨rfl, rfl⟩)

/-- C7: a plain-input `create_run` on a thread holding an active
(non-terminal) run fails with `ConflictError` and creates no run (state
unchanged), while a command resume when the thread's latest run is
interrupted is accepted, returns that same run's id, and advances it to
`running`. -/
theorem createRun_conflict_and_resume (s : ServerState) (tid : Nat) (v w : PyVal) (r : Run) :
    ((∃ r' ∈ s.runs, r'.threadId = tid ∧ r'.status.isTerminal = false) →
      (createRun s tid (some v) Option.none).1 = .error (.conflict "thread already has an active run")
      ∧ (createRun s tid (some v) Option.none).2 = s)
    ∧ (latestRun s tid = some r → r.status = .interrupted →
      (createRun s tid Option.none (some w)).1 = .ok r.runId
      ∧ statusOf (createRun s tid Option.none (some w)).2 r.runId = some .running) := by
  constructor
  · intro hactive
    have hany : (s.runs.any fun x => x.threadId = tid ∧ ¬x.status.isTerminal) = true := by
      rw [List.any_eq_true]
      obtain ⟨r', hmem, ht, hnt⟩ := hactive
      exact ⟨r', hmem, by simp [ht, hnt]⟩
    unfold createRun
    rw [if_pos hany]
    exact ⟨rfl, rfl⟩
  · intro hlatest hint
    unfold createRun
    rw [hlatest]
    dsimp only
    rw [if_pos hint]
    refine ⟨rfl, ?_⟩
    exact statusOf_setStatus_self s r.runId .running
      ⟨r, latestRun_mem s tid r hlatest, rfl⟩

/-- C7 witness: on a thread whose single run is interrupted (hence active),
a plain-input request conflicts with no state change, and a command resume
targets that run and advances it to `running`. -/
theorem createRun_conflict_and_resume_witness :
    ((createRun ⟨[⟨0, 7, .interrupted⟩], [], 1⟩ 7 (some (.dict [])) Option.none).1
        = .error (.conflict "thread already has an active run")
      ∧ (createRun ⟨[⟨0, 7, .interrupted⟩], [], 1⟩ 7 (some (.dict [])) Option.none).2
        = ⟨[⟨0, 7, .interrupted⟩], [], 1⟩)
    ∧ ((createRun ⟨[⟨0, 7, .interrupted⟩], [], 1⟩ 7 Option.none (some (.str "yes"))).1
        = .ok 0
      ∧ statusOf (createRun ⟨[⟨0, 7, .interrupted⟩], [], 1⟩ 7
          Option.none (some (.str "yes"))).2 0 = some .running) := by
  have h := createRun_conflict_and_resume ⟨[⟨0, 7, .interrupted⟩], [], 1⟩ 7
    (.dict []) (.str "yes") ⟨0, 7, .interrupted⟩
  exact ⟨h.1 ⟨⟨0, 7, .interrupted⟩, by simp, rfl, rfl⟩, h.2 rfl rfl⟩

/-- C8: `delete_run` on a non-terminal run fails with `ConflictError` and
leaves the runs and the Event Log unchanged; on a terminal run it succeeds
and removes both the run record and every Event Log entry of that run; on an
absent run it fails with `NotFoundError`. -/
theorem deleteRun_spec (s : ServerState) (rid : Nat) :
    (∀ r, findRun s rid = some r → r.status.isTerminal = false →
      (deleteRun s rid).1 = .error (.conflict "active run cannot be deleted")
      ∧ (deleteRun s rid).2 = s)
    ∧ (∀ r, findRun s rid = some r → r.status.isTerminal = true →
      (deleteRun s rid).1 = .ok ()
      ∧ findRun (deleteRun s rid).2 rid = Option.none
      ∧ ∀ e ∈ (deleteRun s rid).2.events, e.runId ≠ rid)
    ∧ (findRun s rid = Option.none →
      (deleteRun s rid).1 = .error (.notFound "run not found")
      ∧ (deleteRun s rid).2 = s) := by
  refine ⟨?_, ?_, ?_⟩
  · intro r hfind hnt
    unfold deleteRun
    rw [hfind]
    dsimp only
    rw [if_neg (by simp [hnt])]
    exact ⟨rfl, rfl⟩
  · intro r hfind ht
    unfold deleteRun
    rw [hfind]
    dsimp only
    rw [if_pos ht]
    refine ⟨rfl, ?_, ?_⟩
    · unfold findRun
      rw [List.find?_eq_none]
      intro x hx
      have := List.of_mem_filter hx
      simpa using this
    · intro e he
      have := List.of_mem_filter he
      simpa using this
  · intro hfind
    unfold deleteRun
    rw [hfind]
    exact ⟨rfl, rfl⟩

/-- C8 witness: deleting a running run conflicts and changes nothing;
deleting a completed run removes it and its event; deleting an absent run is
not found. -/
theorem deleteRun_spec_witness :
    ((deleteRun ⟨[⟨0, 7, .running⟩], [⟨0, 0, .endEvent, .none⟩], 1⟩ 0).1
        = .error (.conflict "active run cannot be deleted")
      ∧ (deleteRun ⟨[⟨0, 7, .running⟩], [⟨0, 0, .endEvent, .none⟩], 1⟩ 0).2
        = ⟨[⟨0, 7, .running⟩], [⟨0, 0, .endEvent, .none⟩], 1⟩)
    ∧ ((deleteRun ⟨[⟨0, 7, .completed⟩], [⟨0, 0, .endEvent, .none⟩], 1⟩ 0).1 = .ok ()
      ∧ findRun (deleteRun ⟨[⟨0, 7, .completed⟩], [⟨0, 0, .endEvent, .none⟩], 1⟩ 0).2 0
        = Option.none
      ∧ ∀ e ∈ (deleteRun ⟨[⟨0, 7, .completed⟩], [⟨0, 0, .endEvent, .none⟩], 1⟩ 0).2.events,
          e.runId ≠ 0)
    ∧ ((deleteRun ⟨[⟨0, 7, .completed⟩], [], 1⟩ 5).1 = .error (.notFound "run not found")
      ∧ (deleteRun ⟨[⟨0, 7, .completed⟩], [], 1⟩ 5).2 = ⟨[⟨0, 7, .completed⟩], [], 1⟩) := by
  refine ⟨?_, ?_, ?_⟩
  · exact (deleteRun_spec ⟨[⟨0, 7, .running⟩], [⟨0, 0, .endEvent, .none⟩], 1⟩ 0).1
      ⟨0, 7, .running⟩ rfl rfl
  · exact (deleteRun_spec ⟨[⟨0, 7, .completed⟩], [⟨0, 0, .endEvent, .none⟩], 1⟩ 0).2.1
      ⟨0, 7, .completed⟩ rfl rfl
  · exact (deleteRun_spec ⟨[⟨0, 7, .completed⟩], [], 1⟩ 5).2.2 rfl

lemma specEdge_not_terminal (a b : RunStatus) (h : specEdge a b = true) :
    a.isTerminal = false := by
  revert h; cases a <;> cases b <;> decide

/-- C3: across every Run Controller / Execution Driver operation, from a
well-formed state, a run's status either stays unchanged or moves along an
edge of the spec's state machine (`pending → running`,
`running → completed | failed | cancelled | interrupted`,
`interrupted → running`); in particular a run in a terminal status is never
changed by any operation, and no run ever moves directly from `pending` to
`interrupted`. -/
theorem run_status_transitions (op : Op) (s : ServerState) (hWF : WF s)
    (r r' : Run) (hr : r ∈ s.runs) (hr' : r' ∈ (applyOp op s).runs)
    (hid : r'.runId = r.runId) :
    (r'.status = r.status ∨ specEdge r.status r'.status = true)
    ∧ (r.status.isTerminal = true → r'.status = r.status)
    ∧ ¬(r.status = .pending ∧ r'.status = .interrupted) := by
  obtain ⟨hnd, hlt⟩ := hWF
  have same : r' ∈ s.runs → r'.status = r.status := fun h2 => by
    rw [run_eq_of_mem_of_id s hnd r r' hr h2 hid]
  have viaSet : ∀ (rid : Nat) (st : RunStatus) (r1 : Run),
      r1 ∈ s.runs → r1.runId = rid →
      r' ∈ (setStatus s rid st).runs →
      specEdge r1.status st = true →
      r'.status = r.status ∨ specEdge r.status r'.status = true := by
    intro rid st r1 hmem hid1 hmem' hedge
    rcases mem_setStatus_cases s hnd rid st r r' hr hmem' hid with heq | ⟨hrid, heq⟩
    · left; rw [heq]
    · have hr1r : r1 = r :=
        run_eq_of_mem_of_id s hnd r r1 hr hmem (by rw [hid1, hrid])
      right
      rw [heq]
      rw [hr1r] at hedge
      exact hedge
  have core : r'.status = r.status ∨ specEdge r.status r'.status = true := by
    cases op with
    | create tid i c =>
      unfold applyOp createRun at hr'
      cases i with
      | some v =>
        cases c with
        | some w => exact Or.inl (same hr')
        | none =>
          dsimp only at hr'
          by_cases hc : (s.runs.any fun x => x.threadId = tid ∧ ¬x.status.isTerminal) = true
          · rw [if_pos hc] at hr'
            exact Or.inl (same hr')
          · rw [if_neg hc] at hr'
            dsimp only at hr'
            rw [List.mem_append] at hr'
            cases hr' with
            | inl h2 => exact Or.inl (same h2)
            | inr h2 =>
              exfalso
              have hnew : r' = ⟨s.nextId, tid, .pending⟩ := by simpa using h2
              have : r.runId < s.nextId := hlt r hr
              rw [← hid, hnew] at this
              exact lt_irrefl _ this
      | none =>
        cases c with
        | none => exact Or.inl (same hr')
        | some w =>
          dsimp only at hr'
          cases hlat : latestRun s tid with
          | none => rw [hlat] at hr'; exact Or.inl (same hr')
          | some r1 =>
            rw [hlat] at hr'
            dsimp only at hr'
            by_cases hil : r1.status = .interrupted
            · rw [if_pos hil] at hr'
              exact viaSet r1.runId .running r1 (latestRun_mem s tid r1 hlat) rfl hr'
                (by rw [hil]; rfl)
            · rw [if_neg hil] at hr'
              exact Or.inl (same hr')
    | start rid =>
      unfold applyOp startRun at hr'
      dsimp only at hr'
      cases hfind : findRun s rid with
      | none => rw [hfind] at hr'; exact Or.inl (same hr')
      | some r1 =>
        rw [hfind] at hr'
        dsimp only at hr'
        obtain ⟨hmem, hid1⟩ := findRun_eq_some s rid r1 hfind
        by_cases hp : r1.status = .pending
        · rw [if_pos hp] at hr'
          exact viaSet rid .running r1 hmem hid1 hr' (by rw [hp]; rfl)
        · rw [if_neg hp] at hr'
          exact Or.inl (same hr')
    | interruptDetected rid =>
      unfold applyOp markInterrupted at hr'
      dsimp only at hr'
      cases hfind : findRun s rid with
      | none => rw [hfind] at hr'; exact Or.inl (same hr')
      | some r1 =>
        rw [hfind] at hr'
        dsimp only at hr'
        obtain ⟨hmem, hid1⟩ := findRun_eq_some s rid r1 hfind
        by_cases hp : r1.status = .running
        · rw [if_pos hp] at hr'
          exact viaSet rid .interrupted r1 hmem hid1 hr' (by rw [hp]; rfl)
        · rw [if_neg hp] at hr'
          exact Or.inl (same hr')
    | complete rid =>
      unfold applyOp markCompleted at hr'
      dsimp only at hr'
      cases hfind : findRun s rid with
      | none => rw [hfind] at hr'; exact Or.inl (same hr')
      | some r1 =>
        rw [hfind] at hr'
        dsimp only at hr'
        obtain ⟨hmem, hid1⟩ := findRun_eq_some s rid r1 hfind
        by_cases hp : r1.status = .running
        · rw [if_pos hp] at hr'
          exact viaSet rid .completed r1 hmem hid1 hr' (by rw [hp]; rfl)
        · rw [if_neg hp] at hr'
          exact Or.inl (same hr')
    | fail rid =>
      unfold applyOp markFailed at hr'
      dsimp only at hr'
      cases hfind : findRun s rid with
      | none => rw [hfind] at hr'; exact Or.inl (same hr')
      | some r1 =>
        rw [hfind] at hr'
        dsimp only at hr'
        obtain ⟨hmem, hid1⟩ := findRun_eq_some s rid r1 hfind
        by_cases hp : r1.status = .running
        · rw [if_pos hp] at hr'
          exact viaSet rid .failed r1 hmem hid1 hr' (by rw [hp]; rfl)
        · rw [if_neg hp] at hr'
          exact Or.inl (same hr')
    | cancel rid =>
      unfold applyOp cancelRun at hr'
      dsimp only at hr'
      cases hfind : findRun s rid with
      | none => rw [hfind] at hr'; exact Or.inl (same hr')
      | some r1 =>
        rw [hfind] at hr'
        dsimp only at hr'
        obtain ⟨hmem, hid1⟩ := findRun_eq_some s rid r1 hfind
        by_cases hterm : r1.status.isTerminal = true
        · rw [if_pos hterm] at hr'
          exact Or.inl (same hr')
        · rw [if_neg hterm] at hr'
          by_cases hp : r1.status = .running
          · rw [if_pos hp] at hr'
            exact viaSet rid .cancelled r1 hmem hid1 hr' (by rw [hp]; rfl)
          · rw [if_neg hp] at hr'
            exact Or.inl (same hr')
    | delete rid =>
      unfold applyOp deleteRun at hr'
      dsimp only at hr'
      cases hfind : findRun s rid with
      | none => rw [hfind] at hr'; exact Or.inl (same hr')
      | some r1 =>
        rw [hfind] at hr'
        dsimp only at hr'
        by_cases hterm : r1.status.isTerminal = true
        · rw [if_pos hterm] at hr'
          dsimp only at hr'
          exact Or.inl (same (List.mem_of_mem_filter hr'))
        · rw [if_neg hterm] at hr'
          exact Or.inl (same hr')
  refine ⟨core, ?_, ?_⟩
  · intro ht
    cases core with
    | inl h => exact h
    | inr h =>
      rw [specEdge_not_terminal _ _ h] at ht
      exact absurd ht (by decide)
  · rintro ⟨hp, hi⟩
    cases core with
    | inl h =>
      rw [hp, hi] at h
      exact absurd h (by decide)
    | inr h =>
      rw [hp, hi] at h
      exact absurd h (by decide)

/-- C3 witness: starting the pending run of a one-run well-formed state
takes it to `running`, an edge of the machine, not terminal-escaping and not
`pending → interrupted`. -/
theorem run_status_transitions_witness :
    ((Run.mk 0 7 .running).status = (Run.mk 0 7 .pending).status
      ∨ specEdge (Run.mk 0 7 .pending).status (Run.mk 0 7 .running).status = true)
    ∧ ((Run.mk 0 7 .pending).status.isTerminal = true →
        (Run.mk 0 7 .running).status = (Run.mk 0 7 .pending).status)
    ∧ ¬((Run.mk 0 7 .pending).status = .pending
        ∧ (Run.mk 0 7 .running).status = .interrupted) :=
  run_status_transitions (.start 0) ⟨[⟨0, 7, .pending⟩], [], 1⟩
    ⟨by simp, by intro r hr; simp at hr; rw [hr]; decide⟩
    ⟨0, 7, .pending⟩ ⟨0, 7, .running⟩ (by simp)
    (by
      show Run.mk 0 7 .running ∈ (setStatus ⟨[⟨0, 7, .pending⟩], [], 1⟩ 0 .running).runs
      simp [setStatus])
    rfl

lemma kindOf_ne_endEvent (raw : PyVal) : kindOf raw ≠ .endEvent := by
  unfold kindOf
  split <;> decide

lemma normalizeEvent_kind (raw : PyVal) (pe : PreEvent)
    (h : normalizeEvent raw = some pe) : pe.1 = kindOf raw := by
  unfold normalizeEvent at h
  by_cases hs : shouldSkipEvent raw = true
  · rw [if_pos hs] at h; cases h
  · rw [if_neg hs] at h
    cases h
    rfl

lemma assignSeqs_map_seq (rid : Nat) (xs : List PreEvent) :
    (assignSeqs rid xs).map LoggedEvent.seq = List.range xs.length := by
  unfold assignSeqs
  rw [List.map_map]
  have hcomp : (LoggedEvent.seq ∘ fun p : Nat × PreEvent =>
      (⟨rid, p.1, p.2.1, p.2.2⟩ : LoggedEvent)) = Prod.fst := by
    funext p; rfl
  rw [hcomp, List.enum_map_fst]

lemma assignSeqs_map_kind (rid : Nat) (xs : List PreEvent) :
    (assignSeqs rid xs).map LoggedEvent.kind = xs.map Prod.fst := by
  unfold assignSeqs
  rw [List.map_map]
  have hcomp : (LoggedEvent.kind ∘ fun p : Nat × PreEvent =>
      (⟨rid, p.1, p.2.1, p.2.2⟩ : LoggedEvent)) = Prod.fst ∘ Prod.snd := by
    funext p; rfl
  rw [hcomp, ← List.map_map, List.enum_map_snd]

lemma assignSeqs_length (rid : Nat) (xs : List PreEvent) :
    (assignSeqs rid xs).length = xs.length := by
  unfold assignSeqs
  rw [List.length_map, List.enum_length]

lemma runEventBody_no_end (raws : List PyVal) (outcome : Outcome) :
    ∀ k ∈ (runEventBody raws outcome).map Prod.fst, k ≠ StreamKind.endEvent := by
  intro k hk
  unfold runEventBody at hk
  rw [List.map_append, List.mem_append] at hk
  cases hk with
  | inl hacc =>
    rw [List.mem_map] at hacc
    obtain ⟨pe, hpe, hfst⟩ := hacc
    unfold acceptedEvents at hpe
    rw [List.mem_filterMap] at hpe
    obtain ⟨raw, _, hraw⟩ := hpe
    rw [← hfst, normalizeEvent_kind raw pe hraw]
    exact kindOf_ne_endEvent raw
  | inr hout =>
    cases outcome with
    | failure msg =>
      simp at hout
      rw [hout]
      decide
    | success => simp at hout
    | interruptedRun => simp at hout
    | cancelledRun => simp at hout

lemma runEventLog_map_kind (rid : Nat) (raws : List PyVal) (outcome : Outcome) :
    (runEventLog rid raws outcome).map LoggedEvent.kind
      = (runEventBody raws outcome).map Prod.fst ++ [StreamKind.endEvent] := by
  unfold runEventLog
  rw [assignSeqs_map_kind, List.map_append]
  rfl

lemma end_free_count_concat (K : List StreamKind)
    (h : ∀ k ∈ K, k ≠ StreamKind.endEvent) :
    (K ++ [StreamKind.endEvent]).count StreamKind.endEvent = 1 := by
  rw [List.count_append]
  have : K.count StreamKind.endEvent = 0 :=
    List.count_eq_zero.mpr fun hmem => h _ hmem rfl
  rw [this]
  rfl

/-- C4: for every run execution (any raw engine events and any outcome —
completed, failed, interrupted or cancelled), the run's Event Log has
gapless, strictly increasing sequence numbers `0, 1, 2, …`, contains exactly
one event of kind `end`, which is its last event; and every subscriber view
starting inside the log again ends with that single `end` event. -/
theorem event_log_invariants (rid : Nat) (raws : List PyVal) (outcome : Outcome) :
    ((runEventLog rid raws outcome).map LoggedEvent.seq
        = List.range (runEventLog rid raws outcome).length)
    ∧ ((runEventLog rid raws outcome).map LoggedEvent.kind).count .endEvent = 1
    ∧ ((runEventLog rid raws outcome).map LoggedEvent.kind).getLast? = some .endEvent
    ∧ (∀ startSeq, startSeq < (runEventLog rid raws outcome).length →
        ((subscriberView (runEventLog rid raws outcome) startSeq).map
            LoggedEvent.kind).count .endEvent = 1
        ∧ ((subscriberView (runEventLog rid raws outcome) startSeq).map
            LoggedEvent.kind).getLast? = some .endEvent) := by
  have hlen : (runEventLog rid raws outcome).length
      = (runEventBody raws outcome).length + 1 := by
    unfold runEventLog
    rw [assignSeqs_length, List.length_append]
    rfl
  have hkind := runEventLog_map_kind rid raws outcome
  have hnoend := runEventBody_no_end raws outcome
  refine ⟨?_, ?_, ?_, ?_⟩
  · unfold runEventLog
    rw [assignSeqs_map_seq, assignSeqs_length]
  · rw [hkind]
    exact end_free_count_concat _ hnoend
  · rw [hkind]
    exact List.getLast?_concat _
  · intro startSeq hstart
    have hdrop : (subscriberView (runEventLog rid raws outcome) startSeq).map
        LoggedEvent.kind
        = ((runEventBody raws outcome).map Prod.fst).drop startSeq
            ++ [StreamKind.endEvent] := by
      unfold subscriberView
      rw [List.map_drop, hkind, List.drop_append_of_le_length]
      rw [List.length_map]
      rw [hlen] at hstart
      exact Nat.lt_succ_iff.mp hstart
    constructor
    · rw [hdrop]
      refine end_free_count_concat _ ?_
      intro k hkmem
      exact hnoend k (List.mem_of_mem_drop hkmem)
    · rw [hdrop]
      exact List.getLast?_concat _

/-- C4 witness: a failing run over two raw events, one of them carrying the
`langsmith:nostream` tag: the log is gapless from 0, ends with a single
`end`, and so does the subscriber view resuming from sequence number 1. -/
theorem event_log_invariants_witness :
    ((runEventLog 3
        [.tuple [.str "values", .dict [("foo", .str "bar")]],
         .tuple [.str "values", .dict [],
           .tuple [.str "meta", .dict [("tags", .list [.str "langsmith:nostream"])]]]]
        (.failure "boom")).map LoggedEvent.seq
      = List.range (runEventLog 3
        [.tuple [.str "values", .dict [("foo", .str "bar")]],
         .tuple [.str "values", .dict [],
           .tuple [.str "meta", .dict [("tags", .list [.str "langsmith:nostream"])]]]]
        (.failure "boom")).length)
    ∧ ((runEventLog 3
        [.tuple [.str "values", .dict [("foo", .str "bar")]],
         .tuple [.str "values", .dict [],
           .tuple [.str "meta", .dict [("tags", .list [.str "langsmith:nostream"])]]]]
        (.failure "boom")).map LoggedEvent.kind).count .endEvent = 1
    ∧ ((subscriberView (runEventLog 3
        [.tuple [.str "values", .dict [("foo", .str "bar")]],
         .tuple [.str "values", .dict [],
           .tuple [.str "meta", .dict [("tags", .list [.str "langsmith:nostream"])]]]]
        (.failure "boom")) 1).map LoggedEvent.kind).getLast? = some .endEvent := by
  have h := event_log_invariants 3
    [.tuple [.str "values", .dict [("foo", .str "bar")]],
     .tuple [.str "values", .dict [],
       .tuple [.str "meta", .dict [("tags", .list [.str "langsmith:nostream"])]]]]
    (.failure "boom")
  exact ⟨h.1, h.2.1, (h.2.2.2 1 (by decide)).2⟩

lemma lookup?_filter_allowed (context : Dict) (allowed : List String) (k : String) :
    lookup? (context.filter fun kv => allowed.contains kv.1) k
      = if allowed.contains k = true then lookup? context k else Option.none := by
  induction context with
  | nil => cases h : allowed.contains k <;> simp [lookup?, h]
  | cons kv rest ih =>
    by_cases hk : allowed.contains kv.1 = true
    · rw [List.filter_cons_of_pos (by simpa using hk)]
      simp only [lookup?]
      by_cases he : kv.1 = k
      · subst he
        rw [if_pos rfl, if_pos hk, if_pos rfl]
      · rw [if_neg he, ih]
        by_cases hck : allowed.contains k = true
        · rw [if_pos hck, if_pos hck, if_neg he]
        · rw [if_neg hck, if_neg hck]
    · rw [List.filter_cons_of_neg (by simpa using hk)]
      rw [ih]
      by_cases he : kv.1 = k
      · subst he
        rw [if_neg hk, if_neg hk]
      · by_cases hck : allowed.contains k = true
        · rw [if_pos hck, if_pos hck]
          simp only [lookup?]
          rw [if_neg he]
        · rw [if_neg hck, if_neg hck]

/-- C5: with a supplied schema whose `"properties"` dict is non-empty, the
filtered context is exactly the restriction of the context to the schema's
property keys (present keys keep their values, all others are absent), one
diagnostic is recorded per dropped key, each carrying the available keys;
with no schema the context is returned unchanged. -/
theorem filterContext_spec (context : Dict) (schema props : Dict)
    (hprops : lookup? schema "properties" = some (.dict props))
    (hne : props.isEmpty = false) :
    (∀ k, lookup? (filterContextBySchema context (some schema)).1 k
        = if (props.map Prod.fst).contains k = true
          then lookup? context k else Option.none)
    ∧ ((filterContextBySchema context (some schema)).2.map Prod.fst
        = (context.filter fun kv => ¬(props.map Prod.fst).contains kv.1).map Prod.fst)
    ∧ (∀ d ∈ (filterContextBySchema context (some schema)).2,
        d.2 = props.map Prod.fst)
    ∧ filterContextBySchema context Option.none = (context, []) := by
  have hred : filterContextBySchema context (some schema)
      = ((context.filter fun kv => (props.map Prod.fst).contains kv.1),
         (context.filter fun kv => ¬(props.map Prod.fst).contains kv.1).map
           fun kv => (kv.1, props.map Prod.fst)) := by
    unfold filterContextBySchema
    dsimp only
    rw [hprops]
    dsimp only
    rw [if_neg (by simp [hne])]
  refine ⟨?_, ?_, ?_, rfl⟩
  · intro k
    rw [hred]
    exact lookup?_filter_allowed context (props.map Prod.fst) k
  · rw [hred]
    dsimp only
    rw [List.map_map]
    rfl
  · intro d hd
    rw [hred] at hd
    dsimp only at hd
    rw [List.mem_map] at hd
    obtain ⟨kv, _, hkv⟩ := hd
    rw [← hkv]

/-- C5 witness: the spec's example — schema properties `{"a": {}}`, context
`{"a": 1, "b": 2}` — keeps exactly `{"a": 1}` and drops `"b"`. -/
theorem filterContext_spec_witness :
    lookup? (filterContextBySchema [("a", .int 1), ("b", .int 2)]
        (some [("properties", .dict [("a", .dict [])])])).1 "a" = some (.int 1)
    ∧ lookup? (filterContextBySchema [("a", .int 1), ("b", .int 2)]
        (some [("properties", .dict [("a", .dict [])])])).1 "b" = Option.none := by
  have h := filterContext_spec [("a", .int 1), ("b", .int 2)]
    [("properties", .dict [("a", .dict [])])] [("a", .dict [])] rfl rfl
  constructor
  · rw [h.1 "a"]; rfl
  · rw [h.1 "b"]; rfl

end Aegra
